import Mathlib

/-!
Verification of the PyPrep chess engine core (`pyprep_chess.board`,
`pyprep_chess.game`) against its natural-language specification.

The Python source is shallowly embedded: the board's mutable dict is a
function `Square → Option Piece`, mutating methods become functions
returning the new state paired with an optional error (so that partial
mutation before a raised error is faithfully visible), and the unbounded
`while` loop of `_is_path_clear` is embedded with explicit fuel equal to
the Chebyshev distance, with `none` standing for fuel exhaustion.
-/

set_option maxHeartbeats 1000000

namespace PyPrep

/-- Colour enumeration, mirroring `Color` in board.py. -/
inductive Color where
  | WHITE
  | BLACK
deriving DecidableEq, Repr

/-- Mirrors `Color.opponent` in board.py. -/
def Color.opponent : Color → Color
  | .WHITE => .BLACK
  | .BLACK => .WHITE

/-- Piece-kind enumeration, mirroring `PieceType` in board.py. -/
inductive PieceType where
  | KING
  | QUEEN
  | ROOK
  | BISHOP
  | KNIGHT
  | PAWN
deriving DecidableEq, Repr

/-- Mirrors the frozen dataclass `Piece` in board.py. -/
structure Piece where
  color : Color
  kind : PieceType
deriving DecidableEq, Repr

/-- Squares are (file, rank) pairs of integers, as in board.py. -/
abbrev Square := Int × Int

/-- Error kinds raised by the core (board.py and game.py raise ValueError
with distinguishing messages; the spec names them as below). -/
inductive ChessError where
  | noPieceAtSquare
  | illegalMove
  | ownPieceCapture
  | invalidPromotion
  | invalidSquareText
  | outOfBounds
  | wrongTurn
  | unsupportedText
  | unsupportedPromotion
deriving DecidableEq, Repr

/-- Mirrors `BOARD_SIZE = 8` in board.py. -/
def BOARD_SIZE : Int := 8

/-- Mirrors `FILES = "abcdefgh"` in board.py (strings are lists of chars). -/
def FILES : List Char := ['a', 'b', 'c', 'd', 'e', 'f', 'g', 'h']

/-- The rank digits `"12345678"` checked by `parse_square` in board.py. -/
def RANKS : List Char := ['1', '2', '3', '4', '5', '6', '7', '8']

/-- Mirrors `in_bounds` in board.py. -/
def in_bounds (sq : Square) : Bool :=
  decide (0 ≤ sq.1) && decide (sq.1 < BOARD_SIZE) &&
    decide (0 ≤ sq.2) && decide (sq.2 < BOARD_SIZE)

/-- Index of a character in a list, mirroring Python `str.index` guarded by
a membership test (`none` when absent). -/
def listIndex (c : Char) : List Char → Option Nat
  | [] => none
  | x :: xs => if x = c then some 0 else (listIndex c xs).map (· + 1)

/-- Mirrors `parse_square` in board.py: a 2-character name whose first
character is in `FILES` and second in `"12345678"` parses to zero-based
(file, rank); anything else is the InvalidNotation error. -/
def parse_square (name : List Char) : Except ChessError Square :=
  match name with
  | [f, r] =>
    match listIndex f FILES, listIndex r RANKS with
    | some fi, some ri => .ok ((fi : Int), (ri : Int))
    | _, _ => .error .invalidSquareText
  | _ => .error .invalidSquareText

/-- Mirrors `square_name` in board.py: out-of-bounds squares raise, in-bounds
squares format as file letter then rank digit. -/
def square_name (sq : Square) : Except ChessError (List Char) :=
  if in_bounds sq then
    .ok [FILES.getD sq.1.toNat 'a', RANKS.getD sq.2.toNat '1']
  else
    .error .outOfBounds

/-- The board: the Python dict `_grid` is embedded as a function from squares
to optional pieces (absent key = `none`). -/
structure Board where
  grid : Square → Option Piece

/-- Mirrors `Board.get_piece` (dict `.get`). -/
def Board.get_piece (b : Board) (sq : Square) : Option Piece :=
  b.grid sq

/-- Mirrors `Board.set_piece`: `none` pops the key, `some` stores the piece. -/
def Board.set_piece (b : Board) (sq : Square) (p : Option Piece) : Board :=
  ⟨fun s => if s = sq then p else b.grid s⟩

/-- The empty board (`Board.__init__`). -/
def Board.empty : Board :=
  ⟨fun _ => none⟩

/-- Mirrors the `back_rank` list inside `Board.reset`. -/
def back_rank : List PieceType :=
  [.ROOK, .KNIGHT, .BISHOP, .QUEEN, .KING, .BISHOP, .KNIGHT, .ROOK]

/-- Mirrors `Board.reset` / `Board.from_initial_position`: the loop over
`enumerate(back_rank)` placing both sides' pieces on a cleared grid. -/
def Board.from_initial_position : Board :=
  (List.range 8).foldl
    (fun b fi =>
      let kind := back_rank.getD fi .ROOK
      ((((b.set_piece ((fi : Int), 0) (some ⟨.WHITE, kind⟩)).set_piece
          ((fi : Int), 1) (some ⟨.WHITE, .PAWN⟩)).set_piece
          ((fi : Int), 6) (some ⟨.BLACK, .PAWN⟩)).set_piece
          ((fi : Int), 7) (some ⟨.BLACK, kind⟩)))
    Board.empty

/-- Whether an optional destination piece has the given colour (the
`target is not None and target.color is piece.color` tests in board.py). -/
def sameColorTarget (t : Option Piece) (c : Color) : Bool :=
  match t with
  | some p => decide (p.color = c)
  | none => false

/-- Mirrors the Python idiom `(d > 0) - (d < 0)` computing the sign of a
delta in `_is_path_clear`. -/
def sign (d : Int) : Int :=
  (if 0 < d then 1 else 0) - (if d < 0 then 1 else 0)

/-- The `while current != end` loop of `Board._is_path_clear`, with explicit
fuel; `none` models non-termination within the given fuel. -/
def pathClearAux (b : Board) (st : Square) (e : Square) : Nat → Square → Option Bool
  | 0, cur => if cur = e then some true else none
  | fuel + 1, cur =>
    if cur = e then some true
    else if (b.get_piece cur).isSome then some false
    else pathClearAux b st e fuel (cur.1 + st.1, cur.2 + st.2)

/-- Mirrors `Board._is_path_clear`: step by unit increments from just past
`start`; the fuel (Chebyshev distance) suffices for every aligned call,
which is the only way the source invokes it. -/
def Board.is_path_clear (b : Board) (s e : Square) : Bool :=
  let st : Square := (sign (e.1 - s.1), sign (e.2 - s.2))
  let fuel := max (e.1 - s.1).natAbs (e.2 - s.2).natAbs
  (pathClearAux b st e fuel (s.1 + st.1, s.2 + st.2)).getD false

/-- Mirrors `Board.is_legal_move` in board.py, branch for branch. -/
def Board.is_legal_move (b : Board) (piece : Piece) (s e : Square) : Bool :=
  if s = e then false
  else if ¬ in_bounds e then false
  else if sameColorTarget (b.get_piece e) piece.color then false
  else
    match piece.kind with
    | .PAWN =>
      let dir : Int := if piece.color = .WHITE then 1 else -1
      let sr : Int := if piece.color = .WHITE then 1 else 6
      if e.1 - s.1 = 0 then
        if e.2 - s.2 = dir then (b.get_piece e).isNone
        else if e.2 - s.2 = 2 * dir ∧ s.2 = sr then
          (b.get_piece e).isNone && (b.get_piece (s.1, s.2 + dir)).isNone
        else false
      else if (e.1 - s.1).natAbs = 1 ∧ e.2 - s.2 = dir then
        match b.get_piece e with
        | some t => decide (t.color = piece.color.opponent)
        | none => false
      else false
    | .KNIGHT =>
      decide (((e.1 - s.1).natAbs = 1 ∧ (e.2 - s.2).natAbs = 2) ∨
        ((e.1 - s.1).natAbs = 2 ∧ (e.2 - s.2).natAbs = 1))
    | .KING => decide (max (e.1 - s.1).natAbs (e.2 - s.2).natAbs = 1)
    | .BISHOP =>
      decide ((e.1 - s.1).natAbs = (e.2 - s.2).natAbs) && b.is_path_clear s e
    | .ROOK =>
      decide (e.1 - s.1 = 0 ∨ e.2 - s.2 = 0) && b.is_path_clear s e
    | .QUEEN =>
      if (e.1 - s.1).natAbs = (e.2 - s.2).natAbs ∨ e.1 - s.1 = 0 ∨ e.2 - s.2 = 0 then
        b.is_path_clear s e
      else false

/-- Mirrors `Board.move_piece`, including the fact that the InvalidPromotion
error is raised only after the relocation has been executed: the returned
board is the state the Python object is left in when the call returns or
raises. -/
def Board.move_piece (b : Board) (s e : Square) (promotion : Option PieceType) :
    Board × Option ChessError :=
  match b.get_piece s with
  | none => (b, some .noPieceAtSquare)
  | some piece =>
    if ¬ b.is_legal_move piece s e then (b, some .illegalMove)
    else if sameColorTarget (b.get_piece e) piece.color then (b, some .ownPieceCapture)
    else if piece.kind = .PAWN ∧ (e.2 = 0 ∨ e.2 = BOARD_SIZE - 1) then
      if promotion.getD .QUEEN = .PAWN ∨ promotion.getD .QUEEN = .KING then
        ((b.set_piece e (some piece)).set_piece s none, some .invalidPromotion)
      else
        (((b.set_piece e (some piece)).set_piece s none).set_piece e
          (some ⟨piece.color, promotion.getD .QUEEN⟩), none)
    else
      ((b.set_piece e (some piece)).set_piece s none, none)

/-- Mirrors the dataclass `Move` in game.py; `end` is a Lean keyword, so the
field is named `end_`. Square names are strings, embedded as lists of chars. -/
structure Move where
  start : List Char
  end_ : List Char
  promotion : Option PieceType := none
deriving DecidableEq, Repr

/-- Mirrors the dataclass `ChessGame` in game.py. -/
structure ChessGame where
  board : Board
  turn : Color
  history : List Move

/-- The freshly constructed game: initial board, WHITE to move, no history. -/
def ChessGame.initial : ChessGame :=
  ⟨Board.from_initial_position, .WHITE, []⟩

/-- Mirrors `ChessGame.apply_move`: parse both squares, require a piece of
the current colour at the start, delegate to `Board.move_piece` (whose
board state is kept even when it raises), and on success record the move
and flip the turn. -/
def ChessGame.apply_move (g : ChessGame) (m : Move) : ChessGame × Option ChessError :=
  match parse_square m.start, parse_square m.end_ with
  | .error err, _ => (g, some err)
  | .ok _, .error err => (g, some err)
  | .ok s, .ok e =>
    match g.board.get_piece s with
    | none => (g, some .noPieceAtSquare)
    | some piece =>
      if ¬ piece.color = g.turn then (g, some .wrongTurn)
      else
        match g.board.move_piece s e m.promotion with
        | (b2, none) => (⟨b2, g.turn.opponent, g.history ++ [m]⟩, none)
        | (b2, some err) => (⟨b2, g.turn, g.history⟩, some err)

/-- Python `str.strip` on the coordinate text (ASCII whitespace suffices for
the coordinate strings the core consumes). -/
def pyStrip (s : List Char) : List Char :=
  ((s.dropWhile Char.isWhitespace).reverse.dropWhile Char.isWhitespace).reverse

/-- Python `str.lower` on the coordinate text. -/
def pyLower (s : List Char) : List Char :=
  s.map Char.toLower

/-- Mirrors `_promotion_from_char` in game.py (`none` = the KeyError path). -/
def promotion_from_char (c : Char) : Option PieceType :=
  if c = 'q' then some .QUEEN
  else if c = 'r' then some .ROOK
  else if c = 'b' then some .BISHOP
  else if c = 'n' then some .KNIGHT
  else none

/-- Mirrors `ChessGame.apply_sanless`: strip and lowercase, accept length 4
or 5 (a trailing promotion letter), decode and delegate to `apply_move`. -/
def ChessGame.apply_sanless (g : ChessGame) (raw : List Char) : ChessGame × Option ChessError :=
  let n := pyLower (pyStrip raw)
  if n.length = 4 then
    g.apply_move ⟨n.take 2, n.drop 2, none⟩
  else if n.length = 5 then
    match promotion_from_char (n.getD 4 ' ') with
    | none => (g, some .unsupportedPromotion)
    | some p => g.apply_move ⟨n.take 2, (n.drop 2).take 2, some p⟩
  else (g, some .unsupportedText)

/-- Mirrors `ChessGame.load_moves`: apply each notation string in order; the
loop body raises out of the loop at the first failure, leaving the game in
the state reached so far. -/
def ChessGame.load_moves (g : ChessGame) : List (List Char) → ChessGame × Option ChessError
  | [] => (g, none)
  | n :: ns =>
    match g.apply_sanless n with
    | (g2, none) => g2.load_moves ns
    | (g2, some err) => (g2, some err)

/-- Sequencing of `apply_move` calls that all succeed: `none` when any call
in the sequence fails (used to state the turn-alternation invariant). -/
def applySeq : ChessGame → List Move → Option ChessGame
  | g, [] => some g
  | g, m :: ms =>
    match g.apply_move m with
    | (g2, none) => applySeq g2 ms
    | (_, some _) => none

/-! ### Helper lemmas -/

lemma listIndex_isSome (c : Char) : ∀ l : List Char, (listIndex c l).isSome = true ↔ c ∈ l := by
  intro l
  induction l with
  | nil => simp [listIndex]
  | cons x xs ih =>
    by_cases hx : x = c
    · simp [listIndex, hx]
    · rw [listIndex, if_neg hx]
      cases h : listIndex c xs with
      | none =>
        rw [h] at ih
        simp only [List.mem_cons, Option.map_none', Option.isSome_none] at ih ⊢
        simp only [Bool.false_eq_true, false_iff] at ih ⊢
        rintro (hcx | hcxs)
        · exact hx hcx.symm
        · exact ih hcxs
      | some k =>
        rw [h] at ih
        simp only [List.mem_cons, Option.map_some', Option.isSome_some, true_iff] at ih ⊢
        exact Or.inr ih

lemma get_set_self (b : Board) (sq : Square) (p : Option Piece) :
    (b.set_piece sq p).get_piece sq = p := by
  simp [Board.set_piece, Board.get_piece]

lemma get_set_other (b : Board) (sq sq' : Square) (p : Option Piece) (h : sq' ≠ sq) :
    (b.set_piece sq p).get_piece sq' = b.get_piece sq' := by
  simp [Board.set_piece, Board.get_piece, h]

lemma legal_not_own_capture (b : Board) (p : Piece) (s e : Square)
    (h : b.is_legal_move p s e = true) :
    sameColorTarget (b.get_piece e) p.color = false := by
  rw [Board.is_legal_move] at h
  split_ifs at h with h1 h2 h3 <;> first | simpa using h3 | simp at h

lemma legal_ne (b : Board) (p : Piece) (s e : Square)
    (h : b.is_legal_move p s e = true) : s ≠ e := by
  rw [Board.is_legal_move] at h
  split_ifs at h with h1 h2 h3 <;> first | exact h1 | simp at h

/-- Characterisation of a successful `move_piece`: the piece exists, the move
is legal, and the resulting board is the two (or three) `set_piece` writes
the source performs. -/
lemma move_piece_success (b : Board) (s e : Square) (promo : Option PieceType)
    (b' : Board) (h : b.move_piece s e promo = (b', none)) :
    ∃ piece, b.get_piece s = some piece ∧ b.is_legal_move piece s e = true ∧
      b' = (if piece.kind = .PAWN ∧ (e.2 = 0 ∨ e.2 = BOARD_SIZE - 1) then
        ((b.set_piece e (some piece)).set_piece s none).set_piece e
          (some ⟨piece.color, promo.getD .QUEEN⟩)
      else
        (b.set_piece e (some piece)).set_piece s none) := by
  rw [Board.move_piece] at h
  split at h
  · simp at h
  · rename_i piece hget
    split_ifs at h with h1 h2 h3 h4
    all_goals simp only [Prod.mk.injEq, and_true, and_false, reduceCtorEq] at h
    all_goals refine ⟨piece, hget, h1, ?_⟩
    all_goals first
      | (rw [if_pos h3]; exact h.symm)
      | (rw [if_neg h3]; exact h.symm)

/-- Characterisation of a failing `move_piece`: the three validation errors
leave the board untouched, while the InvalidPromotion error is raised only
after the relocation writes have happened. -/
lemma move_piece_failure (b : Board) (s e : Square) (promo : Option PieceType)
    (b' : Board) (err : ChessError) (h : b.move_piece s e promo = (b', some err)) :
    ((err = .noPieceAtSquare ∨ err = .illegalMove ∨ err = .ownPieceCapture) ∧ b' = b) ∨
    (err = .invalidPromotion ∧
      ∃ piece, b.get_piece s = some piece ∧
        b' = (b.set_piece e (some piece)).set_piece s none) := by
  rw [Board.move_piece] at h
  split at h
  · simp only [Prod.mk.injEq, Option.some.injEq, reduceCtorEq, and_false] at h
    obtain ⟨hb, he⟩ := h
    subst hb; subst he
    exact Or.inl ⟨Or.inl rfl, rfl⟩
  · rename_i piece hget
    split_ifs at h with h1 h2 h3 h4
    all_goals simp only [Prod.mk.injEq, Option.some.injEq, reduceCtorEq, and_false] at h
    all_goals obtain ⟨hb, he⟩ := h
    all_goals subst hb
    all_goals subst he
    all_goals first
      | exact Or.inl ⟨Or.inr (Or.inl rfl), rfl⟩
      | exact Or.inl ⟨Or.inr (Or.inr rfl), rfl⟩
      | exact Or.inr ⟨rfl, piece, hget, rfl⟩

/-! ### Claim theorems -/

/-- Claim C7: `parse_square` and `square_name` are mutually inverse: every
in-bounds square formats to a name that parses back to it, every valid
2-character name parses to a square that formats back to it, `parse_square`
fails with the InvalidNotation error on every other string, and
`square_name` fails with OutOfBounds exactly on out-of-bounds squares. -/
theorem C7_parse_format_inverse :
    (∀ sq : Square, in_bounds sq = true →
      ∃ n, square_name sq = .ok n ∧ parse_square n = .ok sq) ∧
    (∀ f r : Char, f ∈ FILES → r ∈ RANKS →
      ∃ sq, parse_square [f, r] = .ok sq ∧ square_name sq = .ok [f, r]) ∧
    (∀ n : List Char, (¬ ∃ f r, n = [f, r] ∧ f ∈ FILES ∧ r ∈ RANKS) →
      parse_square n = .error .invalidSquareText) ∧
    (∀ sq : Square, in_bounds sq = false → square_name sq = .error .outOfBounds) := by
  refine ⟨?_, ?_, ?_, ?_⟩
  · intro sq h
    obtain ⟨a, b⟩ := sq
    simp only [in_bounds, BOARD_SIZE, Bool.and_eq_true, decide_eq_true_eq] at h
    obtain ⟨⟨⟨ha0, ha8⟩, hb0⟩, hb8⟩ := h
    interval_cases a <;> interval_cases b <;> exact ⟨_, rfl, rfl⟩
  · intro f r hf hr
    fin_cases hf <;> fin_cases hr <;> exact ⟨_, rfl, rfl⟩
  · intro n h
    match n with
    | [] => rfl
    | [_] => rfl
    | f :: r :: _ :: _ => rfl
    | [f, r] =>
      cases hf : listIndex f FILES with
      | none => simp [parse_square, hf]
      | some fi =>
        cases hr : listIndex r RANKS with
        | none => simp [parse_square, hf, hr]
        | some ri =>
          exfalso
          exact h ⟨f, r, rfl,
            (listIndex_isSome f FILES).mp (by rw [hf]; rfl),
            (listIndex_isSome r RANKS).mp (by rw [hr]; rfl)⟩
  · intro sq h
    simp [square_name, h]

/-- Claim C2: a successful `move_piece(start, end, promotion)` leaves `start`
empty and puts at `end` the piece that was at `start`, except that a pawn
arriving on rank-index 0 or 7 is replaced by a same-colour piece of kind
`promotion` (QUEEN when no promotion is given). -/
theorem C2_move_success_postcondition (b : Board) (s e : Square)
    (promo : Option PieceType) (b' : Board)
    (h : b.move_piece s e promo = (b', none)) :
    ∃ piece, b.get_piece s = some piece ∧ b'.get_piece s = none ∧
      b'.get_piece e = some (if piece.kind = .PAWN ∧ (e.2 = 0 ∨ e.2 = BOARD_SIZE - 1)
        then ⟨piece.color, promo.getD .QUEEN⟩ else piece) := by
  obtain ⟨piece, hget, hleg, hb⟩ := move_piece_success b s e promo b' h
  have hne : s ≠ e := legal_ne b piece s e hleg
  subst hb
  refine ⟨piece, hget, ?_, ?_⟩
  · split_ifs with hc
    · rw [get_set_other _ _ _ _ hne, get_set_self]
    · rw [get_set_self]
  · split_ifs with hc
    · rw [get_set_self]
    · rw [get_set_other _ _ _ _ (Ne.symm hne), get_set_self]

/-- Concrete board for the C2 and C10 witnesses: a lone white pawn on e2. -/
def boardC2 : Board := Board.empty.set_piece (4, 1) (some ⟨.WHITE, .PAWN⟩)

/-- The board boardC2 after the successful move e2 to e3. -/
def boardC2' : Board :=
  (boardC2.set_piece (4, 2) (some ⟨.WHITE, .PAWN⟩)).set_piece (4, 1) none

/-- Witness for C2: the pawn move e2-e3 on boardC2. -/
theorem C2_move_success_postcondition_witness :
    ∃ piece, boardC2.get_piece (4, 1) = some piece ∧
      boardC2'.get_piece (4, 1) = none ∧
      boardC2'.get_piece (4, 2) =
        some (if piece.kind = .PAWN ∧ ((2 : Int) = 0 ∨ (2 : Int) = BOARD_SIZE - 1)
          then ⟨piece.color, (none : Option PieceType).getD .QUEEN⟩ else piece) :=
  C2_move_success_postcondition boardC2 (4, 1) (4, 2) none boardC2' rfl

/-- Claim C10: a successful `move_piece` changes no square other than the
origin and the destination. -/
theorem C10_move_frame (b : Board) (s e : Square) (promo : Option PieceType)
    (b' : Board) (h : b.move_piece s e promo = (b', none))
    (sq : Square) (hs : sq ≠ s) (he : sq ≠ e) :
    b'.get_piece sq = b.get_piece sq := by
  obtain ⟨piece, hget, hleg, hb⟩ := move_piece_success b s e promo b' h
  subst hb
  split_ifs with hc
  · rw [get_set_other _ _ _ _ he, get_set_other _ _ _ _ hs, get_set_other _ _ _ _ he]
  · rw [get_set_other _ _ _ _ hs, get_set_other _ _ _ _ he]

/-- Witness for C10: square a1 is untouched by the pawn move e2-e3. -/
theorem C10_move_frame_witness :
    boardC2'.get_piece (0, 0) = boardC2.get_piece (0, 0) :=
  C10_move_frame boardC2 (4, 1) (4, 2) none boardC2' rfl (0, 0)
    (by decide) (by decide)

/-- Claim C8: a legal move never targets a same-colour piece, hence the
OwnPieceCapture branch of `move_piece` is unreachable. -/
theorem C8_own_capture_unreachable :
    (∀ (b : Board) (p : Piece) (s e : Square) (t : Piece),
      b.is_legal_move p s e = true → b.get_piece e = some t →
        ¬ t.color = p.color) ∧
    (∀ (b : Board) (s e : Square) (promo : Option PieceType),
      (b.move_piece s e promo).2 ≠ some .ownPieceCapture) := by
  have key : ∀ (b : Board) (p : Piece) (s e : Square) (t : Piece),
      b.is_legal_move p s e = true → b.get_piece e = some t → ¬ t.color = p.color := by
    intro b p s e t hleg hget hcol
    have hfalse := legal_not_own_capture b p s e hleg
    rw [hget] at hfalse
    simp [sameColorTarget, hcol] at hfalse
  refine ⟨key, ?_⟩
  intro b s e promo hcontra
  rw [Board.move_piece] at hcontra
  split at hcontra
  · simp at hcontra
  · rename_i piece hget
    split_ifs at hcontra with h1 h2 h3 h4
    all_goals try simp at hcontra
    have hfalse := legal_not_own_capture b piece s e h1
    rw [h2] at hfalse
    exact absurd hfalse (by simp)

/-- Concrete board for the C8 witness: white rook a1, black pawn a6. -/
def boardC8 : Board :=
  (Board.empty.set_piece (0, 0) (some ⟨.WHITE, .ROOK⟩)).set_piece
    (0, 5) (some ⟨.BLACK, .PAWN⟩)

/-- Witness for C8: the legal rook capture a1-a6 targets an opponent piece. -/
theorem C8_own_capture_unreachable_witness :
    ¬ (Piece.mk .BLACK .PAWN).color = (Piece.mk .WHITE .ROOK).color :=
  C8_own_capture_unreachable.1 boardC8 ⟨.WHITE, .ROOK⟩ (0, 0) (0, 5)
    ⟨.BLACK, .PAWN⟩ rfl rfl

/-- Concrete board for the C1 counterexample: a lone white pawn on a7. -/
def boardC1 : Board := Board.empty.set_piece (0, 6) (some ⟨.WHITE, .PAWN⟩)

/-- The board boardC1 after the relocation writes of the failing call
`move_piece((0,6), (0,7), promotion := KING)`. -/
def boardC1' : Board :=
  (boardC1.set_piece (0, 7) (some ⟨.WHITE, .PAWN⟩)).set_piece (0, 6) none

/-- Counterexample to claim C1 as stated: the call
`move_piece((0,6), (0,7), promotion := KING)` fails with InvalidPromotion,
yet the board placement after the raised error differs from the pre-call
placement (the pawn has left its origin square). -/
theorem C1_counterexample :
    (boardC1.move_piece (0, 6) (0, 7) (some .KING)).2 = some .invalidPromotion ∧
    ¬ (boardC1.move_piece (0, 6) (0, 7) (some .KING)).1.get_piece (0, 6) =
      boardC1.get_piece (0, 6) := by
  decide

/-- Claim C1 amended: failures with NoPieceAtSquare, IllegalMove or
OwnPieceCapture leave the placement unchanged, but a failure with
InvalidPromotion is raised only after the relocation has been executed:
the returned board is the pre-call board with the moved (unpromoted) piece
written to `end` and `start` cleared. -/
theorem C1_no_partial_mutation_amended (b : Board) (s e : Square)
    (promo : Option PieceType) (b' : Board) (err : ChessError)
    (h : b.move_piece s e promo = (b', some err)) :
    ((err = .noPieceAtSquare ∨ err = .illegalMove ∨ err = .ownPieceCapture) →
      ∀ sq, b'.get_piece sq = b.get_piece sq) ∧
    (err = .invalidPromotion →
      ∃ piece, b.get_piece s = some piece ∧
        b' = (b.set_piece e (some piece)).set_piece s none) := by
  rcases move_piece_failure b s e promo b' err h with ⟨herr, rfl⟩ | ⟨herr, piece, hget, rfl⟩
  · constructor
    · intro _ sq; rfl
    · intro hinv
      rcases herr with rfl | rfl | rfl <;> exact absurd hinv (by decide)
  · subst herr
    constructor
    · intro habs
      rcases habs with habs | habs | habs <;> exact absurd habs (by decide)
    · intro _
      exact ⟨piece, hget, rfl⟩

/-- Witness for the amended C1: the failing promotion on boardC1. -/
theorem C1_no_partial_mutation_amended_witness :
    ((ChessError.invalidPromotion = .noPieceAtSquare ∨
      ChessError.invalidPromotion = .illegalMove ∨
      ChessError.invalidPromotion = .ownPieceCapture) →
      ∀ sq, boardC1'.get_piece sq = boardC1.get_piece sq) ∧
    (ChessError.invalidPromotion = .invalidPromotion →
      ∃ piece, boardC1.get_piece (0, 6) = some piece ∧
        boardC1' = (boardC1.set_piece (0, 7) (some piece)).set_piece (0, 6) none) :=
  C1_no_partial_mutation_amended boardC1 (0, 6) (0, 7) (some .KING)
    boardC1' .invalidPromotion rfl

/-- Witness for C7 at concrete inputs: e4 round-trips both ways, `x9` is
rejected, and (8,0) is out of bounds. -/
theorem C7_parse_format_inverse_witness :
    (∃ n, square_name ((4 : Int), (3 : Int)) = .ok n ∧
      parse_square n = .ok ((4 : Int), (3 : Int))) ∧
    (∃ sq, parse_square ['e', '4'] = .ok sq ∧ square_name sq = .ok ['e', '4']) ∧
    parse_square ['x', '9'] = .error .invalidSquareText ∧
    square_name ((8 : Int), (0 : Int)) = .error .outOfBounds :=
  ⟨C7_parse_format_inverse.1 (4, 3) (by decide),
   C7_parse_format_inverse.2.1 'e' '4' (by decide) (by decide),
   C7_parse_format_inverse.2.2.1 ['x', '9']
     (by rintro ⟨f, r, heq, hf, -⟩; cases heq; exact absurd hf (by decide)),
   C7_parse_format_inverse.2.2.2 (8, 0) (by decide)⟩

lemma Color.opponent_opponent (c : Color) : c.opponent.opponent = c := by
  cases c <;> rfl

/-- A successful `apply_move` appends the move to the history and flips the
turn to the opponent. -/
lemma apply_move_success (g : ChessGame) (m : Move) (g' : ChessGame)
    (h : g.apply_move m = (g', none)) :
    g'.turn = g.turn.opponent ∧ g'.history = g.history ++ [m] := by
  rw [ChessGame.apply_move] at h
  split at h
  · exact Option.noConfusion (congrArg Prod.snd h)
  · exact Option.noConfusion (congrArg Prod.snd h)
  · split at h
    · exact Option.noConfusion (congrArg Prod.snd h)
    · split_ifs at h with h1
      all_goals first
        | exact Option.noConfusion (congrArg Prod.snd h)
        | (split at h
           all_goals first
             | exact Option.noConfusion (congrArg Prod.snd h)
             | (obtain rfl : _ = g' := congrArg Prod.fst h
                exact ⟨rfl, rfl⟩))

/-- A sequence of successful `apply_move` calls extends the history by its
length and flips the turn once per move. -/
lemma applySeq_invariant : ∀ (ms : List Move) (g g' : ChessGame),
    applySeq g ms = some g' →
    g'.history.length = g.history.length + ms.length ∧
    g'.turn = (if ms.length % 2 = 0 then g.turn else g.turn.opponent) := by
  intro ms
  induction ms with
  | nil =>
    intro g g' h
    obtain rfl : g = g' := Option.some.inj h
    simp
  | cons m ms ih =>
    intro g g' h
    rw [applySeq] at h
    split at h
    · rename_i g2 hmv
      obtain ⟨hlen, hturn⟩ := ih g2 g' h
      obtain ⟨ht2, hh2⟩ := apply_move_success g m g2 hmv
      constructor
      · rw [hlen, hh2]
        simp only [List.length_append, List.length_cons, List.length_nil]
        omega
      · rw [hturn, ht2]
        by_cases hp : ms.length % 2 = 0
        · rw [if_pos hp, if_neg (by rw [List.length_cons]; omega)]
        · rw [if_neg hp, if_pos (by rw [List.length_cons]; omega),
            Color.opponent_opponent]
    · exact Option.noConfusion h

/-- Claim C5: starting from the fresh game, after N successfully applied
moves the turn is WHITE for even N and BLACK for odd N and the history has
length N; and a call failing with WrongTurn leaves turn and history
unchanged. -/
theorem C5_turn_alternation :
    (∀ (ms : List Move) (g' : ChessGame),
      applySeq ChessGame.initial ms = some g' →
      g'.history.length = ms.length ∧
      g'.turn = (if ms.length % 2 = 0 then Color.WHITE else Color.BLACK)) ∧
    (∀ (g : ChessGame) (m : Move) (g' : ChessGame),
      g.apply_move m = (g', some .wrongTurn) →
      g'.turn = g.turn ∧ g'.history = g.history) := by
  constructor
  · intro ms g' h
    obtain ⟨hlen, hturn⟩ := applySeq_invariant ms ChessGame.initial g' h
    constructor
    · rw [hlen]
      exact Nat.zero_add ms.length
    · rw [hturn]
      rfl
  · intro g m g' h
    rw [ChessGame.apply_move] at h
    split at h
    · obtain rfl : _ = g' := congrArg Prod.fst h
      exact ⟨rfl, rfl⟩
    · obtain rfl : _ = g' := congrArg Prod.fst h
      exact ⟨rfl, rfl⟩
    · split at h
      · obtain rfl : _ = g' := congrArg Prod.fst h
        exact ⟨rfl, rfl⟩
      · split_ifs at h with h1
        all_goals first
          | (obtain rfl : _ = g' := congrArg Prod.fst h
             exact ⟨rfl, rfl⟩)
          | (split at h
             all_goals first
               | exact Option.noConfusion (congrArg Prod.snd h)
               | (obtain rfl : _ = g' := congrArg Prod.fst h
                  exact ⟨rfl, rfl⟩))

/-- Witness for C5: the empty sequence on the fresh game, and the WrongTurn
failure when BLACK's pawn e7 is moved while it is WHITE's turn. -/
theorem C5_turn_alternation_witness :
    (ChessGame.initial.history.length = ([] : List Move).length ∧
      ChessGame.initial.turn =
        (if ([] : List Move).length % 2 = 0 then Color.WHITE else Color.BLACK)) ∧
    (ChessGame.initial.turn = ChessGame.initial.turn ∧
      ChessGame.initial.history = ChessGame.initial.history) :=
  ⟨C5_turn_alternation.1 [] ChessGame.initial rfl,
   C5_turn_alternation.2 ChessGame.initial
     ⟨['e', '7'], ['e', '5'], none⟩ ChessGame.initial rfl⟩

/-- Claim C6: `load_moves` applies the notation strings in order; when one
fails, the earlier moves remain applied (the game state reached so far is
kept), the first error propagates, and no later string is applied (the
result does not depend on what follows the failing string). -/
theorem C6_load_moves_fail_fast (pre : List (List Char)) (g gs gf : ChessGame)
    (n : List Char) (post : List (List Char)) (err : ChessError)
    (hpre : g.load_moves pre = (gs, none))
    (hfail : gs.apply_sanless n = (gf, some err)) :
    g.load_moves (pre ++ n :: post) = (gf, some err) := by
  induction pre generalizing g with
  | nil =>
    obtain rfl : g = gs := congrArg Prod.fst hpre
    rw [List.nil_append, ChessGame.load_moves, hfail]
  | cons p pre ih =>
    rw [ChessGame.load_moves] at hpre
    rw [List.cons_append, ChessGame.load_moves]
    split at hpre
    all_goals first
      | exact Option.noConfusion (congrArg Prod.snd hpre)
      | (rename_i g2 hstep
         exact ih g2 hpre)

/-- Witness for C6: the malformed string `zz` fails immediately on the fresh
game and the following move is not applied. -/
theorem C6_load_moves_fail_fast_witness :
    ChessGame.initial.load_moves
      ([] ++ ['z', 'z'] :: [['a', '2', 'a', '3']]) =
      (ChessGame.initial, some .unsupportedText) :=
  C6_load_moves_fail_fast [] ChessGame.initial ChessGame.initial
    ChessGame.initial ['z', 'z'] [['a', '2', 'a', '3']] .unsupportedText rfl rfl

/-- Chebyshev distance between two squares: the number of unit steps the
`_is_path_clear` walk takes from `start` to `end` on an aligned pair. -/
def chebyshev (s e : Square) : Nat :=
  max (e.1 - s.1).natAbs (e.2 - s.2).natAbs

/-- The unit step `_is_path_clear` uses: the sign of each delta. -/
def stepOf (s e : Square) : Square :=
  (sign (e.1 - s.1), sign (e.2 - s.2))

/-- The squares strictly between `s` and `e` along the unit-step walk:
`s + k * step` for `k = 1 .. chebyshev - 1`. -/
def betweenSquares (s e : Square) : List Square :=
  (List.range (chebyshev s e - 1)).map fun k : Nat =>
    (s.1 + ((k : Int) + 1) * (stepOf s e).1, s.2 + ((k : Int) + 1) * (stepOf s e).2)

/-- The geometric precondition under which the source invokes
`_is_path_clear`: a diagonal, a file move or a rank move. -/
def aligned (s e : Square) : Prop :=
  (e.1 - s.1).natAbs = (e.2 - s.2).natAbs ∨ e.1 - s.1 = 0 ∨ e.2 - s.2 = 0

/-- On an aligned pair, `end` is exactly `chebyshev` unit steps from
`start`. -/
lemma aligned_decomp (s e : Square) (h : aligned s e) :
    e.1 = s.1 + (chebyshev s e : Int) * (stepOf s e).1 ∧
    e.2 = s.2 + (chebyshev s e : Int) * (stepOf s e).2 := by
  obtain ⟨a, b⟩ := s
  obtain ⟨c, d⟩ := e
  simp only [chebyshev, stepOf, sign, aligned] at h ⊢
  rcases h with h | h | h <;> constructor <;> (split_ifs <;> omega)

/-- If the pair is aligned and the squares differ, the step is nonzero. -/
lemma step_ne_zero (s e : Square) (ha : aligned s e) (hne : s ≠ e) :
    (stepOf s e).1 ≠ 0 ∨ (stepOf s e).2 ≠ 0 := by
  obtain ⟨a, b⟩ := s
  obtain ⟨c, d⟩ := e
  simp only [stepOf, sign, aligned] at ha ⊢
  have hne' : ¬(c = a ∧ d = b) := by
    intro ⟨h1, h2⟩; exact hne (by simp [h1, h2])
  split_ifs <;> omega

/-- The path-walk loop, run with fuel at least the number of remaining
steps, terminates normally and returns true exactly when every square it
visits before reaching `e` is empty. -/
lemma pathClearAux_eq_decide (b : Board) (st : Square) :
    ∀ (n fuel : Nat), n ≤ fuel → ∀ (cur e : Square),
      e.1 = cur.1 + (n : Int) * st.1 → e.2 = cur.2 + (n : Int) * st.2 →
      (st.1 ≠ 0 ∨ st.2 ≠ 0) →
      pathClearAux b st e fuel cur =
        some (decide (∀ k : Nat, k < n →
          b.get_piece (cur.1 + (k : Int) * st.1, cur.2 + (k : Int) * st.2) = none)) := by
  intro n
  induction n with
  | zero =>
    intro fuel hf cur e he1 he2 hst
    have hce : cur = e := by
      obtain ⟨c1, c2⟩ := cur
      obtain ⟨e1, e2⟩ := e
      simp only [Nat.cast_zero, zero_mul, add_zero] at he1 he2
      simp [he1, he2]
    cases fuel with
    | zero => simp [pathClearAux, hce]
    | succ f => simp [pathClearAux, hce]
  | succ n ih =>
    intro fuel hf cur e he1 he2 hst
    cases fuel with
    | zero => omega
    | succ f =>
      have coord : ∀ (x st1 : Int) (k : Nat),
          x + st1 + (k : Int) * st1 = x + ((k : Int) + 1) * st1 := by
        intro x st1 k; ring
      have hcne : cur ≠ e := by
        intro hce
        subst hce
        have h1 : ((n : Int) + 1) * st.1 = 0 := by push_cast at he1; linarith
        have h2 : ((n : Int) + 1) * st.2 = 0 := by push_cast at he2; linarith
        have hn1 : ((n : Int) + 1) ≠ 0 := by omega
        rcases hst with hst | hst
        · exact hst ((mul_eq_zero.mp h1).resolve_left hn1)
        · exact hst ((mul_eq_zero.mp h2).resolve_left hn1)
      rw [pathClearAux, if_neg hcne]
      cases hocc : b.get_piece cur with
      | some t =>
        simp only [Option.isSome_some, if_true]
        have hdec : ¬(∀ k : Nat, k < n + 1 →
            b.get_piece (cur.1 + (k : Int) * st.1, cur.2 + (k : Int) * st.2) = none) := by
          intro hall
          have h0 := hall 0 (Nat.succ_pos n)
          simp only [Nat.cast_zero, zero_mul, add_zero, Prod.mk.eta] at h0
          rw [h0] at hocc
          exact Option.noConfusion hocc
        rw [decide_eq_false hdec]
      | none =>
        simp only [Option.isSome_none, Bool.false_eq_true, if_false]
        have hrec := ih f (by omega) (cur.1 + st.1, cur.2 + st.2) e
          (by rw [he1]; push_cast; ring)
          (by rw [he2]; push_cast; ring) hst
        rw [hrec]
        congr 1
        rw [decide_eq_decide]
        dsimp only
        constructor
        · intro hall k hk
          cases k with
          | zero =>
            simp only [Nat.cast_zero, zero_mul, add_zero, Prod.mk.eta]
            exact hocc
          | succ k =>
            have h' := hall k (by omega)
            rw [coord, coord] at h'
            push_cast
            exact h'
        · intro hall k hk
          rw [coord, coord]
          have h' := hall (k + 1) (by omega)
          push_cast at h'
          exact h'

lemma coord_shift (x st1 : Int) (k : Nat) :
    x + st1 + (k : Int) * st1 = x + ((k : Int) + 1) * st1 := by
  ring

lemma chebyshev_pos (s e : Square) (hne : s ≠ e) : 1 ≤ chebyshev s e := by
  obtain ⟨a, b⟩ := s
  obtain ⟨c, d⟩ := e
  have hor : c ≠ a ∨ d ≠ b := by
    by_contra hcon
    push_neg at hcon
    exact hne (by simp [hcon.1, hcon.2])
  simp only [chebyshev]
  rcases hor with hor | hor <;> omega

/-- On an aligned pair of distinct squares, the walk of `_is_path_clear`
terminates normally with the fuel `is_path_clear` supplies, returning
whether every strictly intermediate square is empty. -/
lemma pathClearAux_aligned (b : Board) (s e : Square) (ha : aligned s e)
    (hne : s ≠ e) :
    pathClearAux b (stepOf s e) e (chebyshev s e)
      (s.1 + (stepOf s e).1, s.2 + (stepOf s e).2) =
    some (decide (∀ k : Nat, k < chebyshev s e - 1 →
      b.get_piece (s.1 + (stepOf s e).1 + (k : Int) * (stepOf s e).1,
        s.2 + (stepOf s e).2 + (k : Int) * (stepOf s e).2) = none)) := by
  have hd := chebyshev_pos s e hne
  have hdecomp := aligned_decomp s e ha
  exact pathClearAux_eq_decide b (stepOf s e) (chebyshev s e - 1) (chebyshev s e)
    (by omega) (s.1 + (stepOf s e).1, s.2 + (stepOf s e).2) e
    (by rw [hdecomp.1, Nat.cast_sub hd]; push_cast; ring)
    (by rw [hdecomp.2, Nat.cast_sub hd]; push_cast; ring)
    (step_ne_zero s e ha hne)

/-- `is_path_clear` on an aligned pair of distinct squares decides emptiness
of all squares strictly between start and end. -/
lemma is_path_clear_eq_decide (b : Board) (s e : Square) (ha : aligned s e)
    (hne : s ≠ e) :
    b.is_path_clear s e =
      decide (∀ sq ∈ betweenSquares s e, b.get_piece sq = none) := by
  have hmain := pathClearAux_aligned b s e ha hne
  have hunfold : b.is_path_clear s e =
      (pathClearAux b (stepOf s e) e (chebyshev s e)
        (s.1 + (stepOf s e).1, s.2 + (stepOf s e).2)).getD false := rfl
  have hmem : ∀ sq : Square, sq ∈ betweenSquares s e ↔
      ∃ k : Nat, k < chebyshev s e - 1 ∧
        sq = (s.1 + ((k : Int) + 1) * (stepOf s e).1,
          s.2 + ((k : Int) + 1) * (stepOf s e).2) := by
    intro sq
    constructor
    · intro hsq
      rcases List.mem_map.mp hsq with ⟨k, hk, hfk⟩
      exact ⟨k, List.mem_range.mp hk, hfk.symm⟩
    · rintro ⟨k, hk, rfl⟩
      exact List.mem_map.mpr ⟨k, List.mem_range.mpr hk, rfl⟩
  rw [hunfold, hmain, Option.getD_some, decide_eq_decide]
  constructor
  · intro hP sq hsq
    obtain ⟨k, hk, rfl⟩ := (hmem sq).mp hsq
    have h' := hP k hk
    rw [coord_shift, coord_shift] at h'
    exact h'
  · intro hQ k hk
    rw [coord_shift, coord_shift]
    exact hQ _ ((hmem _).mpr ⟨k, hk, rfl⟩)

/-- Claim C9: the `while` loop of `_is_path_clear` terminates on every
aligned pair of squares (the only way `is_legal_move` invokes it, from its
bishop, rook and queen branches), with the Chebyshev-distance fuel: the
fueled walk returns a value instead of exhausting its fuel. -/
theorem C9_path_loop_terminates (b : Board) (s e : Square) (ha : aligned s e) :
    (pathClearAux b (stepOf s e) e (chebyshev s e)
      (s.1 + (stepOf s e).1, s.2 + (stepOf s e).2)).isSome = true := by
  by_cases hne : s = e
  · subst hne
    have hst : stepOf s s = (0, 0) := by
      simp [stepOf, sign, sub_self]
    have hch : chebyshev s s = 0 := by
      simp [chebyshev, sub_self]
    rw [hst, hch]
    simp [pathClearAux]
  · rw [pathClearAux_aligned b s e ha hne]
    rfl

/-- Witness for C9: the aligned diagonal a1-d4 on the empty board. -/
theorem C9_path_loop_terminates_witness :
    (pathClearAux Board.empty (stepOf (0, 0) (3, 3)) (3, 3)
      (chebyshev (0, 0) (3, 3))
      (((0 : Int), (0 : Int)).1 + (stepOf (0, 0) (3, 3)).1,
        ((0 : Int), (0 : Int)).2 + (stepOf (0, 0) (3, 3)).2)).isSome = true :=
  C9_path_loop_terminates Board.empty (0, 0) (3, 3) (Or.inl (by decide))

/-- The geometric validity condition of the sliding-piece branches of
`is_legal_move`: diagonal for the bishop, file or rank line for the rook,
either for the queen; no other piece kind invokes the path walk. -/
def geomValid (k : PieceType) (s e : Square) : Prop :=
  match k with
  | .BISHOP => (e.1 - s.1).natAbs = (e.2 - s.2).natAbs
  | .ROOK => e.1 - s.1 = 0 ∨ e.2 - s.2 = 0
  | .QUEEN => aligned s e
  | _ => False

/-- Claim C4: a geometrically valid bishop, rook or queen move is rejected
by `is_legal_move` whenever any strictly intermediate square is occupied,
whatever the occupant's colour; and knight and king legality reads no
square other than the destination, so occupancy elsewhere never makes such
a move illegal. -/
theorem C4_sliding_blocked_leapers_not :
    (∀ (b : Board) (p : Piece) (s e : Square) (sq : Square),
      geomValid p.kind s e → sq ∈ betweenSquares s e →
      (b.get_piece sq).isSome = true → b.is_legal_move p s e = false) ∧
    (∀ (b1 b2 : Board) (p : Piece) (s e : Square),
      (p.kind = .KNIGHT ∨ p.kind = .KING) →
      b1.get_piece e = b2.get_piece e →
      b1.is_legal_move p s e = b2.is_legal_move p s e) := by
  constructor
  · intro b p s e sq hg hm hocc
    by_cases hse : s = e
    · rw [Board.is_legal_move, if_pos hse]
    · have ha : aligned s e := by
        cases hk : p.kind
        all_goals rw [hk] at hg
        all_goals first
          | exact False.elim hg
          | exact Or.inl hg
          | exact Or.inr hg
          | exact hg
      have hpath : b.is_path_clear s e = false := by
        rw [is_path_clear_eq_decide b s e ha hse, decide_eq_false_iff_not]
        intro hall
        have hempty := hall sq hm
        rw [hempty] at hocc
        simp at hocc
      cases hk : p.kind
      all_goals rw [hk] at hg
      all_goals try exact False.elim hg
      all_goals rw [Board.is_legal_move, if_neg hse, hk]
      all_goals dsimp only
      all_goals split_ifs
      all_goals try rfl
      all_goals simp [hpath]
  · intro b1 b2 p s e hk hagree
    rcases hk with hk | hk <;>
      simp only [Board.is_legal_move, hk, hagree]

/-- Concrete board for the C4 witness: a white pawn on d4 blocking the
fourth rank. -/
def boardC4 : Board := Board.empty.set_piece (3, 3) (some ⟨.WHITE, .PAWN⟩)

/-- Witness for C4: the rook move a4-h4 over the blocker on d4 is illegal,
and knight legality agrees between the empty board and boardC4. -/
theorem C4_sliding_blocked_leapers_not_witness :
    boardC4.is_legal_move ⟨.WHITE, .ROOK⟩ (0, 3) (7, 3) = false ∧
    Board.empty.is_legal_move ⟨.WHITE, .KNIGHT⟩ (0, 0) (1, 2) =
      boardC4.is_legal_move ⟨.WHITE, .KNIGHT⟩ (0, 0) (1, 2) :=
  ⟨C4_sliding_blocked_leapers_not.1 boardC4 ⟨.WHITE, .ROOK⟩ (0, 3) (7, 3)
      (3, 3) (Or.inr (by decide)) (by decide) (by decide),
   C4_sliding_blocked_leapers_not.2 Board.empty boardC4 ⟨.WHITE, .KNIGHT⟩
      (0, 0) (1, 2) (Or.inl rfl) (by decide)⟩

/-- The pawn branch of `is_legal_move`, abstracted over the direction, the
starting rank and the opponent colour, characterised as the disjunction of
single advance, double advance from the starting rank, and diagonal
capture. -/
lemma pawn_branch_iff (b : Board) (s e : Square) (dir sr : Int) (copp : Color)
    (hdir : dir = 1 ∨ dir = -1) :
    ((if e.1 - s.1 = 0 then
        if e.2 - s.2 = dir then (b.get_piece e).isNone
        else if e.2 - s.2 = 2 * dir ∧ s.2 = sr then
          (b.get_piece e).isNone && (b.get_piece (s.1, s.2 + dir)).isNone
        else false
      else if (e.1 - s.1).natAbs = 1 ∧ e.2 - s.2 = dir then
        (match b.get_piece e with
         | some t => decide (t.color = copp)
         | none => false)
      else false) = true ↔
      ((e.1 - s.1 = 0 ∧ e.2 - s.2 = dir ∧ b.get_piece e = none) ∨
       (e.1 - s.1 = 0 ∧ e.2 - s.2 = 2 * dir ∧ s.2 = sr ∧
         b.get_piece e = none ∧ b.get_piece (s.1, s.2 + dir) = none) ∨
       ((e.1 - s.1).natAbs = 1 ∧ e.2 - s.2 = dir ∧
         ∃ t, b.get_piece e = some t ∧ t.color = copp))) := by
  by_cases h1 : e.1 - s.1 = 0
  · rw [if_pos h1]
    by_cases h2 : e.2 - s.2 = dir
    · rw [if_pos h2, Option.isNone_iff_eq_none]
      constructor
      · intro hget
        exact Or.inl ⟨h1, h2, hget⟩
      · rintro (⟨-, -, hget⟩ | ⟨-, hrd, -, -, -⟩ | ⟨hfd, -, -⟩)
        · exact hget
        · exfalso; rcases hdir with rfl | rfl <;> omega
        · exfalso; omega
    · rw [if_neg h2]
      by_cases h3 : e.2 - s.2 = 2 * dir ∧ s.2 = sr
      · rw [if_pos h3, Bool.and_eq_true, Option.isNone_iff_eq_none,
          Option.isNone_iff_eq_none]
        constructor
        · rintro ⟨hg1, hg2⟩
          exact Or.inr (Or.inl ⟨h1, h3.1, h3.2, hg1, hg2⟩)
        · rintro (⟨-, hrd, -⟩ | ⟨-, -, -, hg1, hg2⟩ | ⟨hfd, -, -⟩)
          · exact absurd hrd h2
          · exact ⟨hg1, hg2⟩
          · exfalso; omega
      · rw [if_neg h3]
        simp only [Bool.false_eq_true, false_iff]
        rintro (⟨-, hrd, -⟩ | ⟨-, hrd, hsr, -, -⟩ | ⟨hfd, -, -⟩)
        · exact h2 hrd
        · exact h3 ⟨hrd, hsr⟩
        · omega
  · rw [if_neg h1]
    by_cases h4 : (e.1 - s.1).natAbs = 1 ∧ e.2 - s.2 = dir
    · rw [if_pos h4]
      cases hget : b.get_piece e with
      | none =>
        simp only [Bool.false_eq_true, false_iff]
        rintro (⟨hfd, -, -⟩ | ⟨hfd, -, -⟩ | ⟨-, -, t, hsome, -⟩)
        · exact h1 hfd
        · exact h1 hfd
        · exact Option.noConfusion hsome
      | some t =>
        simp only [decide_eq_true_eq]
        constructor
        · intro hcol
          exact Or.inr (Or.inr ⟨h4.1, h4.2, t, rfl, hcol⟩)
        · rintro (⟨hfd, -, -⟩ | ⟨hfd, -, -⟩ | ⟨-, -, t2, hsome, hcol⟩)
          · exact absurd hfd h1
          · exact absurd hfd h1
          · obtain rfl := Option.some.inj hsome
            exact hcol
    · rw [if_neg h4]
      simp only [Bool.false_eq_true, false_iff]
      rintro (⟨hfd, -, -⟩ | ⟨hfd, -, -⟩ | ⟨hfd, hrd, -⟩)
      · exact h1 hfd
      · exact h1 hfd
      · exact h4 ⟨hfd, hrd⟩

/-- Claim C3: for a pawn, distinct in-bounds squares, and a destination not
held by a same-colour piece, `is_legal_move` is true exactly for a single
advance onto an empty square, a double advance from the pawn's starting
rank over two empty squares, or a diagonal capture of an opponent piece. -/
theorem C3_pawn_legality (b : Board) (p : Piece) (s e : Square)
    (hk : p.kind = .PAWN) (hne : s ≠ e)
    (hs : in_bounds s = true) (he : in_bounds e = true)
    (ht : sameColorTarget (b.get_piece e) p.color = false) :
    (b.is_legal_move p s e = true ↔
      ((e.1 - s.1 = 0 ∧ e.2 - s.2 = (if p.color = .WHITE then (1 : Int) else -1) ∧
          b.get_piece e = none) ∨
       (e.1 - s.1 = 0 ∧
          e.2 - s.2 = 2 * (if p.color = .WHITE then (1 : Int) else -1) ∧
          s.2 = (if p.color = .WHITE then (1 : Int) else 6) ∧
          b.get_piece e = none ∧
          b.get_piece (s.1, s.2 + (if p.color = .WHITE then (1 : Int) else -1)) = none) ∨
       ((e.1 - s.1).natAbs = 1 ∧
          e.2 - s.2 = (if p.color = .WHITE then (1 : Int) else -1) ∧
          ∃ t, b.get_piece e = some t ∧ t.color = p.color.opponent))) := by
  rw [Board.is_legal_move, hk, if_neg hne, if_neg (not_not_intro he),
    if_neg (by simp [ht])]
  dsimp only
  cases hc : p.color
  · exact pawn_branch_iff b s e 1 1 Color.WHITE.opponent (Or.inl rfl)
  · exact pawn_branch_iff b s e (-1) 6 Color.BLACK.opponent (Or.inr rfl)

/-- Witness for C3: the double advance e2-e4 on the initial board is legal,
via the second disjunct. -/
theorem C3_pawn_legality_witness :
    Board.from_initial_position.is_legal_move ⟨.WHITE, .PAWN⟩ (4, 1) (4, 3) = true :=
  (C3_pawn_legality Board.from_initial_position ⟨.WHITE, .PAWN⟩ (4, 1) (4, 3)
      rfl (by decide) (by decide) (by decide) rfl).mpr
    (Or.inr (Or.inl (by refine ⟨rfl, ?_, ?_, ?_, ?_⟩ <;> decide)))

end PyPrep
